import Mathlib

/-! MindScribe dashboard: a shallow embedding of `src/App.jsx` and `src/api.js`.

The dashboard component keeps its client state in React hooks and forwards every
mutation to the Journal API.  The embedding makes that explicit:

* the hook values become the fields of `State`;
* every setter invocation and every `apiClient` call of a handler becomes an `Event`,
  kept in program order;
* every `await` takes the `Outcome` of the awaited promise as an argument; a rejected
  promise aborts the handler at that line unless a `try`/`catch` surrounds it;
* `window.confirm` is a Boolean argument;
* `new Date(...)` is kept symbolic (`DateCtor`) and evaluated by a small model of the
  platform date parser on the ISO date-time format.
-/

namespace MindScribe

/-! ## Data model -/

/-- Entry identifiers are opaque server-assigned keys; the client only compares them
(`includes`, `!==`) and interpolates them into a path. -/
abbrev EntryId := Nat

/-- An entry as the client reads it (`id`, `content`, `created_at`, `mood_score`,
`mood_label`, `goal_analysis`). -/
structure Entry where
  id : EntryId
  content : String
  created_at : String
  mood_score : Nat
  mood_label : String
  goal_analysis : String
  deriving DecidableEq, Repr

/-- A goal as the client reads it (`id`, `title`). -/
structure Goal where
  id : Nat
  title : String
  deriving DecidableEq, Repr

/-- The `role` field of a chat message: the code writes `'user'` and `'ai'`. -/
inductive Role where
  | user
  | ai
  deriving DecidableEq, Repr

/-- One element of `chatHistory`: `{ role, text }`. -/
structure ChatMessage where
  role : Role
  text : String
  deriving DecidableEq, Repr

/-- The identity collaborator's user object (`useUser().user`); only `id` is read. -/
structure User where
  id : String
  deriving DecidableEq, Repr

/-- The props and identity a `Dashboard` instance closes over: `isDemo` and `user`
(`none` for `null`/`undefined`). -/
structure Session where
  isDemo : Bool
  user : Option User
  deriving DecidableEq, Repr

/-- The `useState` cells of `Dashboard` (App.jsx lines 62-78). -/
structure State where
  entries : List Entry
  newEntry : String
  goals : List Goal
  loading : Bool
  showChat : Bool
  showGoalsModal : Bool
  expandedNote : Option String
  chatMsg : String
  chatHistory : List ChatMessage
  selectedIds : List EntryId
  newGoalTitle : String
  deriving DecidableEq, Repr

/-- The initial value of every `useState` cell. -/
def State.init : State :=
  { entries := [], newEntry := "", goals := [], loading := false, showChat := false,
    showGoalsModal := false, expandedNote := none, chatMsg := "", chatHistory := [],
    selectedIds := [], newGoalTitle := "" }

/-! ## Selection -/

/-- Source: `toggleSelect` (App.jsx 124-126):
`setSelectedIds(prev => prev.includes(id) ? prev.filter(x => x !== id) : [...prev, id])`. -/
def toggleSelect (id : EntryId) (st : State) : State :=
  { st with
    selectedIds :=
      if st.selectedIds.contains id then st.selectedIds.filter (fun x => x != id)
      else st.selectedIds ++ [id] }

/-! ## The string and array helpers of the platform that the handlers use -/

/-- ECMAScript `WhiteSpace` and `LineTerminator` code points: what `String.prototype.trim`
strips (TAB, LF, VT, FF, CR, SP, NBSP, the `Zs` category, LS, PS, ZWNBSP). -/
def isJsWhiteSpace (c : Char) : Bool :=
  c.toNat == 9 || c.toNat == 10 || c.toNat == 11 || c.toNat == 12 || c.toNat == 13 ||
  c.toNat == 32 || c.toNat == 160 || c.toNat == 5760 ||
  (8192 ≤ c.toNat && c.toNat ≤ 8202) || c.toNat == 8232 || c.toNat == 8233 ||
  c.toNat == 8239 || c.toNat == 8287 || c.toNat == 12288 || c.toNat == 65279

/-- `String.prototype.trim`: drop the white space at both ends. -/
def trim (s : String) : String :=
  ⟨((s.data.dropWhile isJsWhiteSpace).reverse.dropWhile isJsWhiteSpace).reverse⟩

/-- `String.prototype.endsWith(t)`. -/
def endsWith (s t : String) : Bool :=
  t.data.isSuffixOf s.data

/-- Substring search on code points: does `t` occur in `cs` at some position. -/
def includesChars (t : List Char) : List Char → Bool
  | [] => t.isEmpty
  | c :: cs => t.isPrefixOf (c :: cs) || includesChars t cs

/-- `String.prototype.includes(t)`. -/
def includes (s t : String) : Bool :=
  includesChars t.data s.data

/-- `Array.prototype.join(sep)` on an array of strings. -/
def join (sep : String) : List String → String
  | [] => ""
  | [x] => x
  | x :: y :: rest => x ++ sep ++ join sep (y :: rest)

/-- `Array.prototype.slice(start, stop)` for non-negative bounds. -/
def slice {α : Type} (l : List α) (start stop : Nat) : List α :=
  (l.take stop).drop start

/-! ## The API client (`src/api.js`) -/

/-- HTTP verbs used by the client. -/
inductive Method where
  | GET
  | POST
  | DELETE
  deriving DecidableEq, Repr

/-- The JSON request bodies of `api.js`, one constructor per shape. -/
inductive Body where
  | empty
  | createEntry (user_id content : String)
  | analyzeBatch (entry_ids : List EntryId)
  | createGoal (user_id title : String)
  | chat (message context : String)
  deriving DecidableEq, Repr

/-- One call on `apiClient`: verb, path relative to the base URL, JSON body. -/
structure Request where
  method : Method
  path : String
  body : Body
  deriving DecidableEq, Repr

namespace api

/-- Source: `getEntries: (userId) => apiClient.get('/entries/' + userId)`. -/
def getEntries (userId : String) : Request :=
  ⟨.GET, "/entries/" ++ userId, .empty⟩

/-- Source: `createEntry: (userId, content) => apiClient.post('/entries/', {user_id, content})`. -/
def createEntry (userId content : String) : Request :=
  ⟨.POST, "/entries/", .createEntry userId content⟩

/-- Source: `deleteEntry: (id) => apiClient.delete('/entries/' + id)`. -/
def deleteEntry (id : EntryId) : Request :=
  ⟨.DELETE, "/entries/" ++ toString id, .empty⟩

/-- Source: `analyzeBatch: (entryIds) => apiClient.post('/analyze/batch/', {entry_ids})`. -/
def analyzeBatch (entryIds : List EntryId) : Request :=
  ⟨.POST, "/analyze/batch/", .analyzeBatch entryIds⟩

/-- Source: `getGoals: (userId) => apiClient.get('/goals/' + userId)`. -/
def getGoals (userId : String) : Request :=
  ⟨.GET, "/goals/" ++ userId, .empty⟩

/-- Source: `createGoal: (userId, title) => apiClient.post('/goals/', {user_id, title})`. -/
def createGoal (userId title : String) : Request :=
  ⟨.POST, "/goals/", .createGoal userId title⟩

/-- Source: `deleteGoal: (id) => apiClient.delete('/goals/' + id)`. -/
def deleteGoal (id : Nat) : Request :=
  ⟨.DELETE, "/goals/" ++ toString id, .empty⟩

/-- Source: `chat: (message, context) => apiClient.post('/chat/', {message, context})`. -/
def chat (message context : String) : Request :=
  ⟨.POST, "/chat/", .chat message context⟩

end api

/-! ## Awaited promises and handler runs -/

/-- How an awaited axios promise settles: fulfilled with the response `data`, or
rejected (network error or non-2xx status). -/
inductive Outcome (α : Type) where
  | resolved (data : α)
  | rejected
  deriving DecidableEq, Repr

/-- A response body the caller never reads. -/
abbrev Payload := String

/-- One invocation of a `useState` setter by a handler.  React queues the update and
commits it no later than the handler's next suspension at an `await`; a functional
update (`appendChatHistory`) is applied to the state as it is when it commits. -/
inductive Setter where
  | setEntries (entries : List Entry)
  | setGoals (goals : List Goal)
  | setNewEntry (text : String)
  | setLoading (busy : Bool)
  | setNewGoalTitle (text : String)
  | setSelectedIds (ids : List EntryId)
  | setChatMsg (text : String)
  | appendChatHistory (msg : ChatMessage)
  deriving DecidableEq, Repr

/-- The state once the update of a setter invocation is committed;
`appendChatHistory msg` is `setChatHistory(prev => [...prev, msg])`. -/
@[simp]
def Setter.apply : Setter → State → State
  | .setEntries entries, st => { st with entries := entries }
  | .setGoals goals, st => { st with goals := goals }
  | .setNewEntry text, st => { st with newEntry := text }
  | .setLoading busy, st => { st with loading := busy }
  | .setNewGoalTitle text, st => { st with newGoalTitle := text }
  | .setSelectedIds ids, st => { st with selectedIds := ids }
  | .setChatMsg text, st => { st with chatMsg := text }
  | .appendChatHistory msg, st => { st with chatHistory := st.chatHistory ++ [msg] }

/-- What a handler does, in program order: it invokes a setter or it issues a request. -/
inductive Event where
  | set (s : Setter)
  | call (r : Request)
  deriving DecidableEq, Repr

/-- The request of a call event. -/
@[simp]
def Event.request? : Event → Option Request
  | .call r => some r
  | .set _ => none

/-- The state React holds once every setter invocation among `events` is committed. -/
def commit (st : State) (events : List Event) : State :=
  events.foldl
    (fun s ev =>
      match ev with
      | .set x => x.apply s
      | .call _ => s)
    st

/-- What one run of an async handler did: the state once all its setter invocations
are committed, its setter invocations and requests in program order, and whether its
own promise fulfilled (`false`: an awaited rejection escaped). -/
structure Run where
  state : State
  events : List Event
  fulfilled : Bool
  deriving DecidableEq, Repr

/-- The requests of a run, in issue order. -/
def Run.requests (r : Run) : List Request :=
  r.events.filterMap Event.request?

/-- A run that has done nothing yet. -/
@[simp]
def Run.start (st : State) : Run :=
  ⟨st, [], true⟩

/-- The run continued by one setter invocation. -/
@[simp]
def Run.set (r : Run) (s : Setter) : Run :=
  ⟨s.apply r.state, r.events ++ [.set s], r.fulfilled⟩

/-- The run continued by issuing one request. -/
@[simp]
def Run.call (r : Run) (q : Request) : Run :=
  ⟨r.state, r.events ++ [.call q], r.fulfilled⟩

/-- The run ended by an awaited rejection that no `catch` handles. -/
@[simp]
def Run.escape (r : Run) : Run :=
  ⟨r.state, r.events, false⟩

/-- The run continued by an awaited sub-run started from its state. -/
@[simp]
def Run.andThen (r : Run) (next : State → Run) : Run :=
  ⟨(next r.state).state, r.events ++ (next r.state).events, (next r.state).fulfilled⟩

/-! ## The dashboard handlers (`src/App.jsx`, lines 82-145) -/

/-- Source: `getUserId = () => isDemo ? 'demo_user' : (user ? user.id : 'demo_user')`. -/
def getUserId (ses : Session) : String :=
  if ses.isDemo then "demo_user"
  else
    match ses.user with
    | some u => u.id
    | none => "demo_user"

/-- Source: `loadData` (App.jsx 84-92).  Both awaits sit inside one `try`; the `catch`
only logs, so the run always fulfils.  `setEntries` runs before the goals fetch is
issued. -/
def loadData (ses : Session) (st : State) (e : Outcome (List Entry))
    (g : Outcome (List Goal)) : Run :=
  let userId := getUserId ses
  let r1 := (Run.start st).call (api.getEntries userId)
  match e with
  | .rejected => r1
  | .resolved es =>
    let r2 := (r1.set (.setEntries es)).call (api.getGoals userId)
    match g with
    | .rejected => r2
    | .resolved gs => r2.set (.setGoals gs)

/-- Source: `handleLog` (App.jsx 95-102).  No `try`: a rejected `createEntry` escapes
before `setNewEntry('')`, the reload and `setLoading(false)`. -/
def handleLog (ses : Session) (st : State) (created : Outcome Payload)
    (e : Outcome (List Entry)) (g : Outcome (List Goal)) : Run :=
  if trim st.newEntry = "" then ⟨st, [], true⟩
  else
    let r1 := ((Run.start st).set (.setLoading true)).call
      (api.createEntry (getUserId ses) st.newEntry)
    match created with
    | .rejected => r1.escape
    | .resolved _ =>
      ((r1.set (.setNewEntry "")).andThen (fun s => loadData ses s e g)).set
        (.setLoading false)

/-- Source: `handleDeleteEntry` (App.jsx 104-110).  `confirmed` is the answer of
`window.confirm("Delete this entry?")`; `e.stopPropagation()` touches no state. -/
def handleDeleteEntry (ses : Session) (st : State) (id : EntryId) (confirmed : Bool)
    (deleted : Outcome Payload) (e : Outcome (List Entry)) (g : Outcome (List Goal)) : Run :=
  if confirmed then
    let r1 := (Run.start st).call (api.deleteEntry id)
    match deleted with
    | .rejected => r1.escape
    | .resolved _ => r1.andThen (fun s => loadData ses s e g)
  else ⟨st, [], true⟩

/-- Source: `handleAddGoal` (App.jsx 112-117). -/
def handleAddGoal (ses : Session) (st : State) (created : Outcome Payload)
    (e : Outcome (List Entry)) (g : Outcome (List Goal)) : Run :=
  if trim st.newGoalTitle = "" then ⟨st, [], true⟩
  else
    let r1 := (Run.start st).call (api.createGoal (getUserId ses) st.newGoalTitle)
    match created with
    | .rejected => r1.escape
    | .resolved _ => (r1.set (.setNewGoalTitle "")).andThen (fun s => loadData ses s e g)

/-- Source: `handleDeleteGoal` (App.jsx 119-122). -/
def handleDeleteGoal (ses : Session) (st : State) (id : Nat) (deleted : Outcome Payload)
    (e : Outcome (List Entry)) (g : Outcome (List Goal)) : Run :=
  let r1 := (Run.start st).call (api.deleteGoal id)
  match deleted with
  | .rejected => r1.escape
  | .resolved _ => r1.andThen (fun s => loadData ses s e g)

/-- Source: `handleBatchAnalyze` (App.jsx 128-135).  No `try`: a rejected
`analyzeBatch` escapes before `setSelectedIds([])`, the reload and `setLoading(false)`. -/
def handleBatchAnalyze (ses : Session) (st : State) (analyzed : Outcome Payload)
    (e : Outcome (List Entry)) (g : Outcome (List Goal)) : Run :=
  if st.selectedIds.length = 0 then ⟨st, [], true⟩
  else
    let r1 := ((Run.start st).set (.setLoading true)).call (api.analyzeBatch st.selectedIds)
    match analyzed with
    | .rejected => r1.escape
    | .resolved _ =>
      ((r1.set (.setSelectedIds [])).andThen (fun s => loadData ses s e g)).set
        (.setLoading false)

/-- Source: `handleChat` (App.jsx 137-145).  `reply` is the settlement of `api.chat`,
carrying `res.data.reply` when it fulfils.  `chatMsg` and `entries` are the values of
the render the handler closes over; both transcript updates are functional. -/
def handleChat (st : State) (reply : Outcome String) : Run :=
  if trim st.chatMsg = "" then ⟨st, [], true⟩
  else
    let userMsg := st.chatMsg
    let r1 := ((Run.start st).set (.appendChatHistory ⟨.user, userMsg⟩)).set (.setChatMsg "")
    let context := join " | " ((slice st.entries 0 5).map Entry.content)
    let r2 := r1.call (api.chat userMsg context)
    match reply with
    | .rejected => r2.escape
    | .resolved text => r2.set (.appendChatHistory ⟨.ai, text⟩)

/-! ## Timestamps (`src/App.jsx`, lines 149-165) -/

/-- The values `created_at` can hold when it reaches `ensureUTC`: absent
(`null`/`undefined`), a string, or a number (epoch milliseconds). -/
inductive Raw where
  | absent
  | str (s : String)
  | num (n : Int)
  deriving DecidableEq, Repr

/-- The `Date` construction `ensureUTC` performs: `new Date()`, `new Date(string)` or
`new Date(number)`. -/
inductive DateCtor where
  | now
  | ofString (s : String)
  | ofNumber (n : Int)
  deriving DecidableEq, Repr

/-- Source: `ensureUTC` (App.jsx 149-156).  `!dateString` holds for an absent value, the
empty string and the number zero; the `typeof` test holds exactly on the `str` case. -/
def ensureUTC (dateString : Raw) : DateCtor :=
  match dateString with
  | .absent => .now
  | .num n => if n = 0 then .now else .ofNumber n
  | .str s =>
    if s = "" then .now
    else if !endsWith s "Z" && !includes s "+" then .ofString (s ++ "Z")
    else .ofString s

/-- Decimal digit test. -/
def isDigit (c : Char) : Bool :=
  48 ≤ c.toNat && c.toNat ≤ 57

/-- The number written by a list of decimal digits (`none` when a character is not a
digit). -/
def digitsValue : List Char → Option Nat
  | [] => some 0
  | c :: cs =>
    if isDigit c then (digitsValue cs).map (fun v => (c.toNat - 48) * 10 ^ cs.length + v)
    else none

/-- The fields of an ISO date-time string; `zone` is the offset from UTC in minutes
east, `none` when the string carries neither `Z` nor an offset. -/
structure DateTimeFields where
  year : Nat
  month : Nat
  day : Nat
  hour : Nat
  minute : Nat
  second : Nat
  millis : Nat
  zone : Option Int
  deriving DecidableEq, Repr

/-- The zone designator of the ECMAScript date-time string format: nothing, `Z`, or
`+HH:mm` / `-HH:mm`. -/
def parseZone : List Char → Option (Option Int)
  | [] => some none
  | [z] => if z = 'Z' then some (some 0) else none
  | [sg, h1, h2, c, m1, m2] =>
    if c = ':' then
      match digitsValue [h1, h2], digitsValue [m1, m2] with
      | some h, some m =>
        if 24 ≤ h || 60 ≤ m then none
        else if sg = '+' then some (some (60 * (h : Int) + m))
        else if sg = '-' then some (some (-(60 * (h : Int) + m)))
        else none
      | _, _ => none
    else none
  | _ => none

/-- What follows the seconds: an optional fraction `.d+` (read to the millisecond), then
the zone designator. -/
def parseTail (rest : List Char) : Option (Nat × Option Int) :=
  match rest with
  | '.' :: more =>
    match digitsValue ((more.takeWhile isDigit ++ ['0', '0']).take 3) with
    | some ms =>
      if more.takeWhile isDigit = [] then none
      else (parseZone (more.dropWhile isDigit)).map (fun z => (ms, z))
    | none => none
  | _ => (parseZone rest).map (fun z => (0, z))

/-- Model of the platform date parser on the four-digit-year date-time strings
`YYYY-MM-DDTHH:mm:ss[.sss][Z|±HH:mm]` of the ECMAScript format.  `none` only says that
the string is outside this form: the platform also reads date-only strings, times
without seconds, `T24:00:00`, expanded years and engine-specific legacy forms, about
which the model says nothing. -/
def parseISO (cs : List Char) : Option DateTimeFields :=
  match cs with
  | y1 :: y2 :: y3 :: y4 :: d1 :: m1 :: m2 :: d2 :: a1 :: a2 :: t :: h1 :: h2 :: c1 ::
      n1 :: n2 :: c2 :: s1 :: s2 :: rest =>
    if d1 = '-' ∧ d2 = '-' ∧ t = 'T' ∧ c1 = ':' ∧ c2 = ':' then
      match digitsValue [y1, y2, y3, y4], digitsValue [m1, m2], digitsValue [a1, a2],
        digitsValue [h1, h2], digitsValue [n1, n2], digitsValue [s1, s2], parseTail rest with
      | some y, some mo, some d, some h, some mi, some sec, some (ms, z) =>
        if 1 ≤ mo ∧ mo ≤ 12 ∧ 1 ≤ d ∧ d ≤ 31 ∧ h < 24 ∧ mi < 60 ∧ sec < 60 then
          some ⟨y, mo, d, h, mi, sec, ms, z⟩
        else none
      | _, _, _, _, _, _, _ => none
    else none
  | _ => none

/-- Days from 1970-01-01 to the proleptic Gregorian date `y`-`m`-`d`. -/
def daysFromCivil (y m d : Int) : Int :=
  let y1 := if m ≤ 2 then y - 1 else y
  let era := y1 / 400
  let yoe := y1 - era * 400
  let mp := if m ≤ 2 then m + 9 else m - 3
  let doy := (153 * mp + 2) / 5 + d - 1
  let doe := yoe * 365 + yoe / 4 - yoe / 100 + doy
  era * 146097 + doe - 719468

/-- The proleptic Gregorian date (year, month, day) of a day count from 1970-01-01. -/
def civilFromDays (z : Int) : Int × Int × Int :=
  let z1 := z + 719468
  let era := z1 / 146097
  let doe := z1 - era * 146097
  let yoe := (doe - doe / 1460 + doe / 36524 - doe / 146096) / 365
  let doy := doe - (365 * yoe + yoe / 4 - yoe / 100)
  let mp := (5 * doy + 2) / 153
  let d := doy - (153 * mp + 2) / 5 + 1
  let m := if mp < 10 then mp + 3 else mp - 9
  (if m ≤ 2 then yoe + era * 400 + 1 else yoe + era * 400, m, d)

/-- The client platform: its clock (epoch milliseconds) and its local zone offset in
minutes east of UTC, used for strings without a zone designator. -/
structure Platform where
  now : Int
  localOffset : Int
  deriving DecidableEq, Repr

/-- The instant (epoch milliseconds) the fields denote, read in zone `localOffset`
when they carry no zone of their own. -/
def DateTimeFields.toEpochMillis (f : DateTimeFields) (localOffset : Int) : Int :=
  let off := match f.zone with
    | some z => z
    | none => localOffset
  (((daysFromCivil f.year f.month f.day * 24 + f.hour) * 60 + f.minute - off) * 60
    + f.second) * 1000 + f.millis

/-- The largest magnitude of a time value: 8.64e15 milliseconds (ECMAScript `TimeClip`). -/
def maxTimeValue : Nat := 8640000000000000

/-- The time value of the constructed `Date`.  `none`: an Invalid Date for a number
beyond the time-value range; for a string, one outside the form `parseISO` models. -/
def DateCtor.eval (p : Platform) : DateCtor → Option Int
  | .now => some p.now
  | .ofNumber n => if n.natAbs ≤ maxTimeValue then some n else none
  | .ofString s => (parseISO s.data).map (fun f => f.toEpochMillis p.localOffset)

/-- A wall-clock reading: calendar date, hour (0-23) and minute. -/
structure WallClock where
  year : Int
  month : Int
  day : Int
  hour : Int
  minute : Int
  deriving DecidableEq, Repr

/-- The instant 1945-10-14T17:30:00Z, from which `Asia/Kolkata` has been UTC+05:30
without interruption (it was +06:30 until then, and other offsets earlier). -/
def kolkataStandardSince : Int := -764145000000

/-- Projection of an instant to the zone `Asia/Kolkata`: UTC+05:30 from
`kolkataStandardSince` on; earlier instants are outside the model (`none`). -/
def toKolkata (epochMillis : Int) : Option WallClock :=
  if kolkataStandardSince ≤ epochMillis then
    let minutes := epochMillis / 60000 + 330
    let days := minutes / 1440
    let ofDay := minutes - days * 1440
    let ymd := civilFromDays days
    some ⟨ymd.1, ymd.2.1, ymd.2.2, ofDay / 60, ofDay % 60⟩
  else none

/-- The parts `toLocaleTimeString` renders for `hour: 'numeric', minute: '2-digit',
hour12: true`: the hour on the 12-hour dial, the minute, and AM (`false`) or PM
(`true`). -/
structure TimeText where
  hour : Int
  minute : Int
  pm : Bool
  deriving DecidableEq, Repr

/-- Source: `formatTimeIST` (App.jsx 158-165): the `Asia/Kolkata` time of day of
`ensureUTC(dateString)` on the 12-hour dial; `none` where `DateCtor.eval` or `toKolkata`
gives `none`. -/
def formatTimeIST (p : Platform) (dateString : Raw) : Option TimeText :=
  ((ensureUTC dateString).eval p).bind (fun t =>
    (toKolkata t).map (fun w =>
      ⟨if w.hour % 12 = 0 then 12 else w.hour % 12, w.minute, decide (12 ≤ w.hour)⟩))

/-- An explicit zone offset in the claims' words: the string ends in `+HH:mm` or
`-HH:mm`. -/
def hasExplicitOffset (s : String) : Bool :=
  6 ≤ s.data.length &&
    (match parseZone (s.data.drop (s.data.length - 6)) with
      | some (some _) => true
      | _ => false)

/-! ## The chat context as the specification words it -/

/-- The context in the specification's words, to be compared with what `handleChat`
computes: the contents of the first five entries (all of them when there are fewer than
five), in list order, separated by `" | "`. -/
def firstFiveContext : List Entry → String
  | [] => ""
  | [a] => a.content
  | [a, b] => a.content ++ " | " ++ b.content
  | [a, b, c] => a.content ++ " | " ++ b.content ++ " | " ++ c.content
  | [a, b, c, d] => a.content ++ " | " ++ b.content ++ " | " ++ c.content ++ " | " ++ d.content
  | a :: b :: c :: d :: e :: _ =>
    a.content ++ " | " ++ b.content ++ " | " ++ c.content ++ " | " ++ d.content ++ " | "
      ++ e.content

/-! ## Sessions of user gestures -/

/-- One thing that can happen to a mounted dashboard: a user gesture wired to a handler
in the JSX (with what the API answers while the handler runs and, for a delete, what the
user answers to the prompt), an input `onChange`, or the opening and closing of a popup. -/
inductive Action where
  | reload (e : Outcome (List Entry)) (g : Outcome (List Goal))
  | toggleSelect (id : EntryId)
  | batchAnalyze (analyzed : Outcome Payload) (e : Outcome (List Entry))
      (g : Outcome (List Goal))
  | log (created : Outcome Payload) (e : Outcome (List Entry)) (g : Outcome (List Goal))
  | deleteEntry (id : EntryId) (confirmed : Bool) (deleted : Outcome Payload)
      (e : Outcome (List Entry)) (g : Outcome (List Goal))
  | addGoal (created : Outcome Payload) (e : Outcome (List Entry)) (g : Outcome (List Goal))
  | deleteGoal (id : Nat) (deleted : Outcome Payload) (e : Outcome (List Entry))
      (g : Outcome (List Goal))
  | chat (reply : Outcome String)
  | setNewEntry (text : String)
  | setChatMsg (text : String)
  | setNewGoalTitle (text : String)
  | setShowChat (visible : Bool)
  | setShowGoalsModal (visible : Bool)
  | setExpandedNote (note : Option String)
  deriving DecidableEq, Repr

/-- The state after one action, each handler running to its end before the next action
starts. -/
def step (ses : Session) (st : State) : Action → State
  | .reload e g => (loadData ses st e g).state
  | .toggleSelect id => toggleSelect id st
  | .batchAnalyze analyzed e g => (handleBatchAnalyze ses st analyzed e g).state
  | .log created e g => (handleLog ses st created e g).state
  | .deleteEntry id confirmed deleted e g =>
    (handleDeleteEntry ses st id confirmed deleted e g).state
  | .addGoal created e g => (handleAddGoal ses st created e g).state
  | .deleteGoal id deleted e g => (handleDeleteGoal ses st id deleted e g).state
  | .chat reply => (handleChat st reply).state
  | .setNewEntry text => { st with newEntry := text }
  | .setChatMsg text => { st with chatMsg := text }
  | .setNewGoalTitle text => { st with newGoalTitle := text }
  | .setShowChat visible => { st with showChat := visible }
  | .setShowGoalsModal visible => { st with showGoalsModal := visible }
  | .setExpandedNote note => { st with expandedNote := note }

/-- The state after a sequence of actions on a dashboard mounted in its initial state. -/
def runActions (ses : Session) (actions : List Action) : State :=
  actions.foldl (step ses) State.init

/-! ## Selection: toggling twice -/

/-- The selection list after one toggle. -/
theorem toggleSelect_selectedIds (id : EntryId) (st : State) :
    (toggleSelect id st).selectedIds =
      if id ∈ st.selectedIds then st.selectedIds.filter (fun x => x != id)
      else st.selectedIds ++ [id] := by
  by_cases h : id ∈ st.selectedIds <;> simp [toggleSelect, h]

/-- Filtering an id out of a list that does not hold it changes nothing. -/
theorem filter_ne_of_not_mem (id : EntryId) (l : List EntryId) (h : id ∉ l) :
    l.filter (fun x => x != id) = l := by
  rw [List.filter_eq_self]
  intro a ha
  have : a ≠ id := fun hEq => h (hEq ▸ ha)
  simpa using this

/-- The array behind the selection set can come back in another order: toggling id 1
twice on `[1, 2]` leaves `[2, 1]`, the same set of ids. -/
theorem toggleSelect_twice_reorders :
    (toggleSelect 1 (toggleSelect 1 { State.init with selectedIds := [1, 2] })).selectedIds
        = [2, 1] ∧
      toggleSelect 1 (toggleSelect 1 { State.init with selectedIds := [1, 2] })
        ≠ { State.init with selectedIds := [1, 2] } := by
  decide

/-- The state after a double toggle, and the membership it preserves. -/
theorem toggleSelect_twice_aux (id : EntryId) (st : State) :
    toggleSelect id (toggleSelect id st) =
        { st with
          selectedIds :=
            if id ∈ st.selectedIds then st.selectedIds.filter (fun x => x != id) ++ [id]
            else st.selectedIds } ∧
      (∀ x, x ∈ (toggleSelect id (toggleSelect id st)).selectedIds ↔ x ∈ st.selectedIds) := by
  have key : (toggleSelect id (toggleSelect id st)).selectedIds =
      if id ∈ st.selectedIds then st.selectedIds.filter (fun x => x != id) ++ [id]
      else st.selectedIds := by
    rw [toggleSelect_selectedIds, toggleSelect_selectedIds]
    by_cases h : id ∈ st.selectedIds
    · simp [h]
    · simp [h, filter_ne_of_not_mem id st.selectedIds h]
  refine ⟨?_, ?_⟩
  · rw [← key]
    rfl
  · intro x
    rw [key]
    by_cases h : id ∈ st.selectedIds
    · simp only [h, if_true, List.mem_append, List.mem_filter, List.mem_singleton]
      constructor
      · rintro (⟨hx, -⟩ | rfl)
        · exact hx
        · exact h
      · intro hx
        by_cases hxi : x = id
        · exact Or.inr hxi
        · exact Or.inl ⟨hx, by simpa using hxi⟩
    · simp [h]

/-- C1: toggling the same id twice returns the selection set to its original state,
whether the id was selected or not: the set of selected ids is the original one (an id
is selected afterwards if and only if it was before), and no other state cell changes.
The array that holds the set is the original one when the id was not selected, and the
original one with the id moved to the end when it was. -/
theorem toggleSelect_twice (id : EntryId) (st : State) :
    (toggleSelect id (toggleSelect id st)).selectedIds.toFinset = st.selectedIds.toFinset ∧
      (∀ x, x ∈ (toggleSelect id (toggleSelect id st)).selectedIds ↔ x ∈ st.selectedIds) ∧
      toggleSelect id (toggleSelect id st) =
        { st with
          selectedIds :=
            if id ∈ st.selectedIds then st.selectedIds.filter (fun x => x != id) ++ [id]
            else st.selectedIds } := by
  have hmem : ∀ x,
      x ∈ (toggleSelect id (toggleSelect id st)).selectedIds ↔ x ∈ st.selectedIds := by
    exact (toggleSelect_twice_aux id st).2
  refine ⟨?_, hmem, (toggleSelect_twice_aux id st).1⟩
  ext x
  simp only [List.mem_toFinset]
  exact hmem x

/-! ## Batch analysis and the loader: failure paths -/

/-- C2 (counterexample): with entry 1 selected and the analyze call rejected, the
selection is still `[1]` after the handler, not empty. -/
theorem handleBatchAnalyze_rejected_keeps_selection :
    (handleBatchAnalyze ⟨true, none⟩ { State.init with selectedIds := [1] } .rejected
        (.resolved []) (.resolved [])).state.selectedIds = [1] ∧
      (handleBatchAnalyze ⟨true, none⟩ { State.init with selectedIds := [1] } .rejected
        (.resolved []) (.resolved [])).state.selectedIds ≠ [] := by
  decide

/-- C2 (amended): when the analyze call fulfils, whatever its response and whatever the
reload does, the selection is empty afterwards; when it is rejected the handler stops
there and the selection is what it was. -/
theorem handleBatchAnalyze_selection (ses : Session) (st : State)
    (e : Outcome (List Entry)) (g : Outcome (List Goal)) :
    (∀ payload : Payload,
        (handleBatchAnalyze ses st (.resolved payload) e g).state.selectedIds = []) ∧
      (handleBatchAnalyze ses st .rejected e g).state.selectedIds = st.selectedIds := by
  constructor
  · intro payload
    unfold handleBatchAnalyze
    by_cases h : st.selectedIds.length = 0
    · simp only [h, if_true]
      exact List.length_eq_zero.mp h
    · cases e <;> cases g <;> simp [h, loadData]
  · unfold handleBatchAnalyze
    by_cases h : st.selectedIds.length = 0 <;> simp [h]

/-- C3 (counterexample): from the initial state, when the entries fetch fulfils with one
entry and the goals fetch is rejected, the entry list is no longer what it was. -/
theorem loadData_goals_rejected_replaces_entries :
    (loadData ⟨true, none⟩ State.init (.resolved [⟨1, "a", "", 0, "", ""⟩]) .rejected).state.entries
        = [⟨1, "a", "", 0, "", ""⟩] ∧
      (loadData ⟨true, none⟩ State.init (.resolved [⟨1, "a", "", 0, "", ""⟩]) .rejected).state.entries
        ≠ State.init.entries := by
  decide

/-- C3 (amended): loadData always fulfils (the error is swallowed); a rejected entries
fetch leaves the whole state untouched and the goals fetch is never issued; a rejected
goals fetch after a fulfilled entries fetch leaves the goals untouched while the entry
list is already the fetched one. -/
theorem loadData_failure (ses : Session) (st : State) (e : Outcome (List Entry))
    (g : Outcome (List Goal)) :
    (loadData ses st e g).fulfilled = true ∧
      (loadData ses st .rejected g).state = st ∧
      (loadData ses st .rejected g).requests = [api.getEntries (getUserId ses)] ∧
      (∀ es, (loadData ses st (.resolved es) .rejected).state = { st with entries := es }) := by
  refine ⟨?_, rfl, rfl, fun _ => rfl⟩
  cases e <;> cases g <;> rfl

/-! ## Timestamps with an explicit offset -/

/-- Searching for the one-character string `+` is a membership test. -/
theorem includesChars_plus (cs : List Char) :
    includesChars ['+'] cs = true ↔ '+' ∈ cs := by
  induction cs with
  | nil => simp [includesChars]
  | cons c cs ih =>
    simp only [includesChars, Bool.or_eq_true, ih, List.mem_cons]
    have : List.isPrefixOf ['+'] (c :: cs) = true ↔ '+' = c := by
      simp [List.isPrefixOf]
    rw [this]

/-- A string holding a `+` anywhere reaches the date parser unchanged. -/
theorem ensureUTC_of_plus (s : String) (h : '+' ∈ s.data) :
    ensureUTC (.str s) = .ofString s := by
  have hne : s ≠ "" := by
    rintro rfl
    simp at h
  have hinc : includes s "+" = true := (includesChars_plus s.data).mpr h
  simp [ensureUTC, hne, hinc]

/-- C4 (the code at the failing input): a timestamp with the explicit offset `-05:00`
does not reach the date parser unchanged: `Z` is appended, and the result is no longer
a date-time string, while the same timestamp with `+05:30` is passed through. -/
theorem ensureUTC_negative_offset :
    ensureUTC (.str "2026-01-14T16:00:00-05:00") = .ofString "2026-01-14T16:00:00-05:00Z" ∧
      (parseISO "2026-01-14T16:00:00-05:00".data).map DateTimeFields.zone
        = some (some (-300)) ∧
      parseISO "2026-01-14T16:00:00-05:00Z".data = none ∧
      ensureUTC (.str "2026-01-14T16:00:00+05:30") = .ofString "2026-01-14T16:00:00+05:30" := by
  decide

/-! ## Creating an entry from blank content -/

/-- Trimming a string made of white space only leaves the empty string. -/
theorem trim_eq_empty_of_blank (s : String) (h : ∀ c ∈ s.data, isJsWhiteSpace c = true) :
    trim s = "" := by
  have h1 : s.data.dropWhile isJsWhiteSpace = [] := List.dropWhile_eq_nil_iff.mpr h
  simp [trim, h1]

/-- C5: when the input buffer is empty or holds white space only, handleLog issues no
call, fulfils, and leaves every state cell (entries, input buffer, busy flag included)
as it was, whoever the user is and whatever the API would have answered. -/
theorem handleLog_blank (ses : Session) (st : State) (created : Outcome Payload)
    (e : Outcome (List Entry)) (g : Outcome (List Goal))
    (h : ∀ c ∈ st.newEntry.data, isJsWhiteSpace c = true) :
    handleLog ses st created e g = ⟨st, [], true⟩ := by
  simp [handleLog, trim_eq_empty_of_blank st.newEntry h]

/-- C5 (witness): a buffer of spaces, a tab and a newline. -/
theorem handleLog_blank_witness :
    handleLog ⟨false, some ⟨"u1"⟩⟩ { State.init with newEntry := "  \t\n" } (.resolved "")
        (.resolved []) (.resolved [])
      = ⟨{ State.init with newEntry := "  \t\n" }, [], true⟩ :=
  handleLog_blank _ _ _ _ _ (by decide)

/-! ## Batch analysis: the requests issued -/

/-- The requests of a reload: the entries fetch, then the goals fetch unless the
entries fetch was rejected. -/
theorem loadData_requests (ses : Session) (st : State) (e : Outcome (List Entry))
    (g : Outcome (List Goal)) :
    (loadData ses st e g).requests =
      api.getEntries (getUserId ses) ::
        (match e with
          | .resolved _ => [api.getGoals (getUserId ses)]
          | .rejected => []) := by
  cases e <;> cases g <;> rfl

/-- C6 (counterexample): with entry 7 selected and the analyze call rejected, the
analyze request is the only request: no reload follows it. -/
theorem handleBatchAnalyze_rejected_no_reload :
    (handleBatchAnalyze ⟨true, none⟩ { State.init with selectedIds := [7] } .rejected
        (.resolved []) (.resolved [])).requests
      = [⟨.POST, "/analyze/batch/", .analyzeBatch [7]⟩] := by
  decide

/-- C6 (amended): with an empty selection no request is issued; otherwise the first
request is `POST /analyze/batch/` with body `{entry_ids: ids}` (same ids, same order),
it is the only analyze request, and the reload (entries fetch, then goals fetch)
follows exactly when that call fulfils. -/
theorem handleBatchAnalyze_requests (ses : Session) (st : State)
    (analyzed : Outcome Payload) (e : Outcome (List Entry)) (g : Outcome (List Goal)) :
    (handleBatchAnalyze ses st analyzed e g).requests =
      if st.selectedIds = [] then []
      else
        ⟨.POST, "/analyze/batch/", .analyzeBatch st.selectedIds⟩ ::
          (match analyzed with
            | .rejected => []
            | .resolved _ =>
              api.getEntries (getUserId ses) ::
                (match e with
                  | .resolved _ => [api.getGoals (getUserId ses)]
                  | .rejected => [])) := by
  unfold handleBatchAnalyze
  by_cases h : st.selectedIds = []
  · simp [h, Run.requests]
  · have hl : st.selectedIds.length ≠ 0 := fun hl => h (List.length_eq_zero.mp hl)
    cases analyzed with
    | rejected => simp [h, hl, Run.requests, api.analyzeBatch]
    | resolved payload =>
      have := loadData_requests ses { st with loading := true, selectedIds := [] } e g
      simp only [Run.requests] at this
      simp [h, hl, Run.requests, api.analyzeBatch, this]

/-! ## Chat -/

/-- The context `handleChat` builds is the specification's first-five context. -/
theorem join_slice_eq_firstFiveContext (es : List Entry) :
    join " | " ((slice es 0 5).map Entry.content) = firstFiveContext es := by
  match es with
  | [] => rfl
  | [a] => rfl
  | [a, b] => simp [slice, join, firstFiveContext, String.append_assoc]
  | [a, b, c] => simp [slice, join, firstFiveContext, String.append_assoc]
  | [a, b, c, d] => simp [slice, join, firstFiveContext, String.append_assoc]
  | a :: b :: c :: d :: e :: rest =>
    simp [slice, join, firstFiveContext, String.append_assoc]

/-- The first-five context only depends on the first five entries. -/
theorem firstFiveContext_take (es : List Entry) :
    firstFiveContext (es.take 5) = firstFiveContext es := by
  match es with
  | [] => rfl
  | [a] => rfl
  | [a, b] => rfl
  | [a, b, c] => rfl
  | [a, b, c, d] => rfl
  | a :: b :: c :: d :: e :: rest => simp [firstFiveContext]

/-- C7: the only request handleChat ever issues is `POST /chat/` carrying the message
and, as context, the contents of the first five loaded entries (all when fewer) in list
order joined with `" | "`; it is issued exactly when the message is not blank, and any
entry list with the same first five entries yields the same request. -/
theorem handleChat_context (st : State) (reply : Outcome String) :
    (handleChat st reply).requests =
        (if trim st.chatMsg = "" then []
          else [⟨.POST, "/chat/", .chat st.chatMsg (firstFiveContext st.entries)⟩]) ∧
      (∀ es : List Entry, es.take 5 = st.entries.take 5 →
        (handleChat { st with entries := es } reply).requests = (handleChat st reply).requests) := by
  have main : ∀ st : State, (handleChat st reply).requests =
      (if trim st.chatMsg = "" then []
        else [⟨.POST, "/chat/", .chat st.chatMsg (firstFiveContext st.entries)⟩]) := by
    intro st
    unfold handleChat
    by_cases h : trim st.chatMsg = ""
    · simp [h, Run.requests]
    · cases reply <;>
        simp [h, Run.requests, api.chat, join_slice_eq_firstFiveContext]
  refine ⟨main st, ?_⟩
  intro es hes
  rw [main, main]
  have : firstFiveContext es = firstFiveContext st.entries := by
    rw [← firstFiveContext_take es, ← firstFiveContext_take st.entries, hes]
  simp [this]

/-- C8 (counterexample): with the empty message the call fulfils as a no-op even though
the server would reply "hi": the transcript stays empty instead of gaining a user and
an assistant message. -/
theorem handleChat_blank_appends_nothing :
    (handleChat { State.init with chatMsg := "" } (.resolved "hi")).state.chatHistory = [] ∧
      (handleChat { State.init with chatMsg := "" } (.resolved "hi")).fulfilled = true ∧
      (handleChat { State.init with chatMsg := "" } (.resolved "hi")).state.chatHistory
        ≠ [⟨.user, ""⟩, ⟨.ai, "hi"⟩] := by
  decide

/-- The state of a run is its start state with the run's setter invocations committed
in program order (shown for the loader and the chat handler). -/
theorem state_eq_commit (ses : Session) (st : State) (e : Outcome (List Entry))
    (g : Outcome (List Goal)) (reply : Outcome String) :
    (loadData ses st e g).state = commit st (loadData ses st e g).events ∧
      (handleChat st reply).state = commit st (handleChat st reply).events := by
  constructor
  · cases e <;> cases g <;> simp [loadData, commit]
  · unfold handleChat
    by_cases h : trim st.chatMsg = ""
    · simp [h, commit]
    · cases reply <;> simp [h, commit]

/-- A string that trims to the empty string holds white space only. -/
theorem blank_of_trim_eq_empty (s : String) (h : trim s = "") :
    ∀ c ∈ s.data, isJsWhiteSpace c = true := by
  have hdata :
      ((s.data.dropWhile isJsWhiteSpace).reverse.dropWhile isJsWhiteSpace).reverse = [] := by
    have := congrArg String.data h
    simpa [trim] using this
  have h1 : (s.data.dropWhile isJsWhiteSpace).reverse.dropWhile isJsWhiteSpace = [] :=
    List.reverse_eq_nil_iff.mp hdata
  have h2 : ∀ x ∈ (s.data.dropWhile isJsWhiteSpace).reverse, isJsWhiteSpace x = true :=
    List.dropWhile_eq_nil_iff.mp h1
  have h3 : s.data.dropWhile isJsWhiteSpace = [] := by
    by_contra hne
    have hhead := List.head_dropWhile_not isJsWhiteSpace s.data hne
    have hmem : (s.data.dropWhile isJsWhiteSpace).head hne
        ∈ (s.data.dropWhile isJsWhiteSpace).reverse :=
      List.mem_reverse.mpr (List.head_mem hne)
    rw [h2 _ hmem] at hhead
    exact Bool.noConfusion hhead
  exact List.dropWhile_eq_nil_iff.mp h3

/-- C8 (amended): for every state and reply, a blank message (empty or white space
only) makes handleChat a no-op: no setter is invoked, no request is issued, the whole
state stays as it was.  For a message with a character that is not white space, a run
whose API call fulfils with reply `r` does exactly this, in this order: it invokes the
append of the user message and the clearing of the input, issues the one chat request,
and after the reply invokes the append of one assistant message with text `r`; the
state is the prior one with the input cleared and the transcript followed by those two
messages, and the transcript committed from the setters invoked before the request is
the prior one followed by the user message.  Both appends are functional updates: on
whatever transcript they commit, they add these two messages at its end and change or
remove nothing that is in it. -/
theorem handleChat_transcript (st : State) (r : String) (reply : Outcome String) :
    ((∀ c ∈ st.chatMsg.data, isJsWhiteSpace c = true) →
        handleChat st reply = ⟨st, [], true⟩) ∧
      ((∃ c ∈ st.chatMsg.data, isJsWhiteSpace c = false) →
        handleChat st (.resolved r) =
            ⟨{ st with
                chatMsg := "",
                chatHistory := st.chatHistory ++ [⟨.user, st.chatMsg⟩, ⟨.ai, r⟩] },
              [.set (.appendChatHistory ⟨.user, st.chatMsg⟩), .set (.setChatMsg ""),
                .call (api.chat st.chatMsg (firstFiveContext st.entries)),
                .set (.appendChatHistory ⟨.ai, r⟩)],
              true⟩ ∧
          (commit st ((handleChat st (.resolved r)).events.takeWhile
              (fun ev => ev.request?.isNone))).chatHistory
            = st.chatHistory ++ [⟨.user, st.chatMsg⟩] ∧
          (∀ other : State,
            (commit other (handleChat st (.resolved r)).events).chatHistory
              = other.chatHistory ++ [⟨.user, st.chatMsg⟩, ⟨.ai, r⟩])) := by
  constructor
  · intro hblank
    simp [handleChat, trim_eq_empty_of_blank st.chatMsg hblank]
  · rintro ⟨c, hc, hws⟩
    have hne : trim st.chatMsg ≠ "" := by
      intro hEq
      rw [blank_of_trim_eq_empty st.chatMsg hEq c hc] at hws
      exact Bool.noConfusion hws
    have hrun : handleChat st (.resolved r) =
        ⟨{ st with
            chatMsg := "",
            chatHistory := st.chatHistory ++ [⟨.user, st.chatMsg⟩, ⟨.ai, r⟩] },
          [.set (.appendChatHistory ⟨.user, st.chatMsg⟩), .set (.setChatMsg ""),
            .call (api.chat st.chatMsg (firstFiveContext st.entries)),
            .set (.appendChatHistory ⟨.ai, r⟩)],
          true⟩ := by
      simp [handleChat, hne, join_slice_eq_firstFiveContext]
    refine ⟨hrun, ?_, ?_⟩
    · rw [hrun]
      simp [commit, List.takeWhile]
    · intro other
      rw [hrun]
      simp [commit]

/-- C8 (witness): the message "How am I doing?" answered with "Fine." on a transcript
that already holds one exchange. -/
theorem handleChat_transcript_witness :
    (handleChat { State.init with chatMsg := "How am I doing?",
                                  chatHistory := [⟨.user, "hi"⟩, ⟨.ai, "hello"⟩] }
        (.resolved "Fine.")).state.chatHistory
      = [⟨.user, "hi"⟩, ⟨.ai, "hello"⟩, ⟨.user, "How am I doing?"⟩, ⟨.ai, "Fine."⟩] :=
  congrArg (fun run => run.state.chatHistory)
    ((handleChat_transcript
      { State.init with chatMsg := "How am I doing?",
                        chatHistory := [⟨.user, "hi"⟩, ⟨.ai, "hello"⟩] }
      "Fine." .rejected).2 (by decide)).1

/-! ## Deleting an entry -/

/-- C9 (counterexample): the prompt is confirmed and the delete call is rejected: the
delete request is the only request, no reload follows it. -/
theorem handleDeleteEntry_rejected_no_reload :
    (handleDeleteEntry ⟨true, none⟩ State.init 3 true .rejected (.resolved [])
        (.resolved [])).requests
      = [⟨.DELETE, "/entries/3", .empty⟩] := by
  decide

/-- C9 (amended): a declined prompt issues no request and leaves the whole state
(entries, goals and selection included) as it was; a confirmed prompt issues exactly one
`DELETE /entries/{id}` first, and the reload (entries fetch, then goals fetch) follows
exactly when that call fulfils. -/
theorem handleDeleteEntry_requests (ses : Session) (st : State) (id : EntryId)
    (confirmed : Bool) (deleted : Outcome Payload) (e : Outcome (List Entry))
    (g : Outcome (List Goal)) :
    handleDeleteEntry ses st id false deleted e g = ⟨st, [], true⟩ ∧
      (handleDeleteEntry ses st id confirmed deleted e g).requests =
        if confirmed then
          ⟨.DELETE, "/entries/" ++ toString id, .empty⟩ ::
            (match deleted with
              | .rejected => []
              | .resolved _ =>
                api.getEntries (getUserId ses) ::
                  (match e with
                    | .resolved _ => [api.getGoals (getUserId ses)]
                    | .rejected => []))
        else [] := by
  refine ⟨by simp [handleDeleteEntry], ?_⟩
  unfold handleDeleteEntry
  cases confirmed with
  | false => simp [Run.requests]
  | true =>
    cases deleted with
    | rejected => simp [Run.requests, api.deleteEntry]
    | resolved payload =>
      have := loadData_requests ses st e g
      simp only [Run.requests] at this
      simp [Run.requests, api.deleteEntry, this]


/-! ## Timestamps without a zone designator -/

/-- A digit is neither `Z` nor `+`. -/
theorem isDigit_plain (c : Char) (h : isDigit c = true) : c ≠ 'Z' ∧ c ≠ '+' := by
  constructor <;>
    · rintro rfl
      revert h
      decide

/-- A list with a decimal value consists of digits. -/
theorem digitsValue_all (cs : List Char) (v : Nat) (h : digitsValue cs = some v) :
    ∀ c ∈ cs, isDigit c = true := by
  induction cs generalizing v with
  | nil => simp
  | cons c cs ih =>
    simp only [digitsValue] at h
    by_cases hc : isDigit c = true
    · simp only [hc, if_true, Option.map_eq_some'] at h
      obtain ⟨w, hw, -⟩ := h
      intro x hx
      rcases List.mem_cons.mp hx with rfl | hx
      · exact hc
      · exact ih w hw x hx
    · simp [hc] at h

/-- Only the empty designator denotes "no zone". -/
theorem parseZone_none (r : List Char) (h : parseZone r = some none) : r = [] := by
  unfold parseZone at h
  split at h
  · rfl
  · split at h <;> simp at h
  · split at h
    · split at h
      · split at h
        · simp at h
        · split at h
          · simp at h
          · split at h <;> simp at h
      · simp at h
    · simp at h
  · simp at h

/-- Appending a non-matching element after a run of matching ones: the run is the
longest matching front. -/
theorem takeWhile_append_singleton {α : Type} (p : α → Bool) (l : List α) (x : α)
    (hl : ∀ a ∈ l, p a = true) (hx : p x = false) :
    (l ++ [x]).takeWhile p = l ∧ (l ++ [x]).dropWhile p = [x] := by
  induction l with
  | nil => simp [List.takeWhile, List.dropWhile, hx]
  | cons a l ih =>
    have ha : p a = true := hl a (List.mem_cons_self a l)
    have ih2 := ih (fun b hb => hl b (List.mem_cons_of_mem a hb))
    simp [List.takeWhile, List.dropWhile, ha, ih2.1, ih2.2]

/-- A tail without a zone is empty or a fraction of digits, and the same tail followed
by `Z` reads as the same fraction in UTC. -/
theorem parseTail_none (rest : List Char) (ms : Nat) (h : parseTail rest = some (ms, none)) :
    (∀ c ∈ rest, c ≠ 'Z' ∧ c ≠ '+') ∧ parseTail (rest ++ ['Z']) = some (ms, some 0) := by
  unfold parseTail at h
  split at h
  · rename_i more
    split at h
    · rename_i ms1 hms
      split at h
      · simp at h
      · rename_i hne
        simp only [Option.map_eq_some'] at h
        obtain ⟨z, hz, hpair⟩ := h
        simp only [Prod.mk.injEq] at hpair
        obtain ⟨rfl, rfl⟩ := hpair
        have hdrop : more.dropWhile isDigit = [] := parseZone_none _ hz
        have hall : ∀ c ∈ more, isDigit c = true := List.dropWhile_eq_nil_iff.mp hdrop
        have htake : more.takeWhile isDigit = more := List.takeWhile_eq_self_iff.mpr hall
        rw [htake] at hms hne
        have hZ : isDigit 'Z' = false := by decide
        obtain ⟨ht, hd⟩ := takeWhile_append_singleton isDigit more 'Z' hall hZ
        constructor
        · intro c hc
          rcases List.mem_cons.mp hc with rfl | hc
          · decide
          · exact isDigit_plain c (hall c hc)
        · show parseTail ('.' :: (more ++ ['Z'])) = _
          simp only [parseTail, ht, hd, hms]
          simp [hne, parseZone]
    · simp at h
  · rename_i hnot
    simp only [Option.map_eq_some'] at h
    obtain ⟨z, hz, hpair⟩ := h
    simp only [Prod.mk.injEq] at hpair
    obtain ⟨rfl, rfl⟩ := hpair
    have : rest = [] := parseZone_none _ hz
    subst this
    constructor
    · simp
    · decide


/-- A date-time string without a zone designator is non-empty, holds neither `Z` nor
`+`, and with `Z` appended reads as the same fields in UTC. -/
theorem parseISO_unzoned (cs : List Char) (f : DateTimeFields) (h : parseISO cs = some f)
    (hz : f.zone = none) :
    cs ≠ [] ∧ (∀ c ∈ cs, c ≠ 'Z' ∧ c ≠ '+') ∧
      parseISO (cs ++ ['Z']) = some { f with zone := some 0 } := by
  unfold parseISO at h
  split at h
  · split at h
    · rename_i hseps
      split at h
      · split at h
        · rename_i hrange
          rename_i y1 y2 y3 y4 d1 m1 m2 d2 a1 a2 t h1 h2 c1 n1 n2 c2 s1 s2 rest _ _ _ _ _ _ _
            y mo d hh mi sec ms z hy hmo hd hh2 hmi hsec htail
          obtain ⟨rfl, rfl, rfl, rfl, rfl⟩ := hseps
          simp only [Option.some.injEq] at h
          subst h
          simp only at hz
          subst hz
          obtain ⟨hrest, htailZ⟩ := parseTail_none rest ms htail
          have dy := digitsValue_all _ _ hy
          have dmo := digitsValue_all _ _ hmo
          have dd := digitsValue_all _ _ hd
          have dh := digitsValue_all _ _ hh2
          have dmi := digitsValue_all _ _ hmi
          have dsec := digitsValue_all _ _ hsec
          refine ⟨by simp, ?_, ?_⟩
          · intro c hc
            simp only [List.mem_cons] at hc
            rcases hc with rfl | rfl | rfl | rfl | rfl | rfl | rfl | rfl | rfl | rfl | rfl | rfl |
              rfl | rfl | rfl | rfl | rfl | rfl | rfl | hc
            all_goals first
              | exact hrest c hc
              | decide
              | (apply isDigit_plain; apply dy; simp; done)
              | (apply isDigit_plain; apply dmo; simp; done)
              | (apply isDigit_plain; apply dd; simp; done)
              | (apply isDigit_plain; apply dh; simp; done)
              | (apply isDigit_plain; apply dmi; simp; done)
              | (apply isDigit_plain; apply dsec; simp)
          · simp only [List.cons_append, parseISO, hy, hmo, hd, hh2, hmi, hsec, htailZ, hrange,
              and_self, if_true]
        · simp at h
      · simp at h
    · simp at h
  · simp at h


/-- A string without the character `Z` does not end in `Z`. -/
theorem endsWith_Z_false (s : String) (h : ∀ c ∈ s.data, c ≠ 'Z') : endsWith s "Z" = false := by
  rw [Bool.eq_false_iff]
  intro hs
  have hsuf : ['Z'] <:+ s.data := List.isSuffixOf_iff_suffix.mp hs
  obtain ⟨t, ht⟩ := hsuf
  exact h 'Z' (by rw [← ht]; simp) rfl

/-- The guard of ensureUTC: `Z` is appended to every non-empty string that neither ends
in `Z` nor holds a `+`. -/
theorem ensureUTC_appends_Z (s : String) (hs : s ≠ "") (hend : endsWith s "Z" = false)
    (hplus : '+' ∉ s.data) :
    ensureUTC (.str s) = .ofString (s ++ "Z") := by
  have hinc : includes s "+" = false := by
    rw [Bool.eq_false_iff]
    intro hi
    exact hplus ((includesChars_plus s.data).mp hi)
  simp [ensureUTC, hs, hend, hinc]

/-- A four-digit-year date-time string without zone designator is handed to the date
parser with `Z` appended, so the instant it resolves to is its fields read in UTC,
whatever the client's own zone. -/
theorem ensureUTC_unzoned (s : String) (f : DateTimeFields) (hp : parseISO s.data = some f)
    (hz : f.zone = none) :
    ensureUTC (.str s) = .ofString (s ++ "Z") ∧
      ∀ p : Platform, (ensureUTC (.str s)).eval p = some (f.toEpochMillis 0) := by
  obtain ⟨hne, hplain, hZ⟩ := parseISO_unzoned s.data f hp hz
  have hs : s ≠ "" := by
    rintro rfl
    exact hne rfl
  have hend : endsWith s "Z" = false := endsWith_Z_false s (fun c hc => (hplain c hc).1)
  have hcall : ensureUTC (.str s) = .ofString (s ++ "Z") :=
    ensureUTC_appends_Z s hs hend (fun hmem => (hplain '+' hmem).2 rfl)
  refine ⟨hcall, fun p => ?_⟩
  have hdata : (s ++ "Z").data = s.data ++ ['Z'] := by simp
  rw [hcall]
  simp only [DateCtor.eval, hdata, hZ, Option.map_some']
  simp [DateTimeFields.toEpochMillis, hz]

/-- The timestamp "2026-01-14T16:00:00" resolves to 2026-01-14 16:00:00 UTC (epoch
millisecond 1768406400000) on every client, and its Asia/Kolkata wall clock is 21:30 on
2026-01-14, rendered as 9:30 PM. -/
theorem ensureUTC_example :
    ensureUTC (.str "2026-01-14T16:00:00") = .ofString "2026-01-14T16:00:00Z" ∧
      (∀ p : Platform, (ensureUTC (.str "2026-01-14T16:00:00")).eval p = some 1768406400000) ∧
      (⟨2026, 1, 14, 16, 0, 0, 0, some 0⟩ : DateTimeFields).toEpochMillis 0 = 1768406400000 ∧
      toKolkata 1768406400000 = some ⟨2026, 1, 14, 21, 30⟩ ∧
      (∀ p : Platform, formatTimeIST p (.str "2026-01-14T16:00:00") = some ⟨9, 30, true⟩) := by
  have hparse : parseISO "2026-01-14T16:00:00".data = some ⟨2026, 1, 14, 16, 0, 0, 0, none⟩ := by
    decide
  have hspec := ensureUTC_unzoned "2026-01-14T16:00:00" _ hparse rfl
  have hev : ∀ p : Platform,
      (ensureUTC (.str "2026-01-14T16:00:00")).eval p = some 1768406400000 := by
    intro p
    rw [hspec.2 p]
    decide
  refine ⟨hspec.1, hev, by decide, by decide, fun p => ?_⟩
  simp only [formatTimeIST, hev p, Option.some_bind]
  decide

/-- A timestamp with microseconds, as a server serialises it, gets `Z` appended. -/
theorem ensureUTC_unzoned_microseconds :
    ensureUTC (.str "2026-01-14T16:00:00.123456") = .ofString "2026-01-14T16:00:00.123456Z" :=
  (ensureUTC_unzoned "2026-01-14T16:00:00.123456"
    ⟨2026, 1, 14, 16, 0, 0, 123, none⟩ (by decide) rfl).1

/-- C10 (the code at the failing input): the expanded-year timestamp
"+002026-01-14T16:00:00" neither ends in `Z` nor carries a zone offset, yet ensureUTC
hands it to the date parser unchanged, without `Z`, because its year sign is a `+`;
the same instant written with a four-digit year does get `Z` appended. -/
theorem ensureUTC_expanded_year :
    endsWith "+002026-01-14T16:00:00" "Z" = false ∧
      hasExplicitOffset "+002026-01-14T16:00:00" = false ∧
      ensureUTC (.str "+002026-01-14T16:00:00") = .ofString "+002026-01-14T16:00:00" ∧
      ensureUTC (.str "+002026-01-14T16:00:00") ≠ .ofString "+002026-01-14T16:00:00Z" ∧
      ensureUTC (.str "2026-01-14T16:00:00") = .ofString "2026-01-14T16:00:00Z" := by
  decide

/-! ## Selection: membership and the no-duplicate invariant -/

/-- C11: toggleSelect flips the membership of the toggled id (it is selected afterwards
if and only if it was not before) and leaves the membership of every other id as it
was. -/
theorem toggleSelect_flips (id : EntryId) (st : State) :
    (id ∈ (toggleSelect id st).selectedIds ↔ id ∉ st.selectedIds) ∧
      (∀ x, x ≠ id → (x ∈ (toggleSelect id st).selectedIds ↔ x ∈ st.selectedIds)) := by
  rw [toggleSelect_selectedIds]
  by_cases h : id ∈ st.selectedIds
  · simp only [h, if_true, List.mem_filter, not_true_eq_false, iff_false, not_and]
    refine ⟨fun _ => by simp, fun x hx => ?_⟩
    constructor
    · exact fun hmem => hmem.1
    · exact fun hmem => ⟨hmem, by simpa using hx⟩
  · simp only [h, if_false, List.mem_append, List.mem_singleton, not_false_eq_true, iff_true]
    refine ⟨Or.inr trivial, fun x hx => ?_⟩
    constructor
    · rintro (hmem | hEq)
      · exact hmem
      · exact absurd hEq hx
    · exact fun hmem => Or.inl hmem

/-! ## Session and user resolution -/

/-- C12: in demo mode getUserId is the sentinel `demo_user` whatever identity is
provided; outside demo mode with a user present it is that user's id; it is a function
of the demo flag and the provided identity alone, and the reload issued from any state
of the session addresses exactly that id. -/
theorem getUserId_resolution (ses : Session) (provided : Option User) (u : User) :
    getUserId ⟨true, provided⟩ = "demo_user" ∧
      getUserId ⟨false, some u⟩ = u.id ∧
      (∀ other : Session, other.isDemo = ses.isDemo → other.user = ses.user →
        getUserId other = getUserId ses) ∧
      (∀ (st : State) (e : Outcome (List Entry)) (g : Outcome (List Goal)),
        ∀ r ∈ (loadData ses st e g).requests,
          r = ⟨.GET, "/entries/" ++ getUserId ses, .empty⟩ ∨
            r = ⟨.GET, "/goals/" ++ getUserId ses, .empty⟩) := by
  refine ⟨rfl, rfl, ?_, ?_⟩
  · intro other hd hu
    cases other
    cases ses
    simp only at hd hu
    subst hd
    subst hu
    rfl
  · intro st e g r hr
    rw [loadData_requests] at hr
    cases e with
    | rejected =>
      simp only [List.mem_singleton] at hr
      exact Or.inl hr
    | resolved es =>
      simp only [List.mem_cons, List.mem_singleton, List.not_mem_nil, or_false] at hr
      exact hr

/-! ## The selection never holds an id twice -/

/-- A toggle keeps a duplicate-free selection duplicate-free. -/
theorem toggleSelect_nodup (id : EntryId) (st : State) (h : st.selectedIds.Nodup) :
    (toggleSelect id st).selectedIds.Nodup := by
  rw [toggleSelect_selectedIds]
  by_cases hmem : id ∈ st.selectedIds
  · simp only [hmem, if_true]
    exact h.filter _
  · simp only [hmem, if_false]
    exact List.Nodup.append h (List.nodup_singleton id)
      (List.disjoint_singleton.mpr hmem)

/-- The reload never writes the selection. -/
theorem loadData_selectedIds (ses : Session) (st : State) (e : Outcome (List Entry))
    (g : Outcome (List Goal)) :
    (loadData ses st e g).state.selectedIds = st.selectedIds := by
  cases e <;> cases g <;> rfl

/-- Every action other than a toggle leaves the selection as it was or empties it. -/
theorem step_selectedIds (ses : Session) (st : State) (a : Action) :
    (step ses st a).selectedIds = st.selectedIds ∨ (step ses st a).selectedIds = [] ∨
      ∃ id, a = .toggleSelect id := by
  cases a with
  | toggleSelect id => exact Or.inr (Or.inr ⟨id, rfl⟩)
  | reload e g => exact Or.inl (loadData_selectedIds ses st e g)
  | batchAnalyze analyzed e g =>
    simp only [step, handleBatchAnalyze]
    by_cases hl : st.selectedIds.length = 0
    · left
      simp [hl]
    · cases analyzed with
      | rejected =>
        left
        simp [hl]
      | resolved payload =>
        right
        left
        simp [hl, loadData_selectedIds]
  | log created e g =>
    left
    simp only [step, handleLog]
    by_cases hb : trim st.newEntry = ""
    · simp [hb]
    · cases created <;> simp [hb, loadData_selectedIds]
  | deleteEntry id confirmed deleted e g =>
    left
    simp only [step, handleDeleteEntry]
    cases confirmed <;> cases deleted <;> simp [loadData_selectedIds]
  | addGoal created e g =>
    left
    simp only [step, handleAddGoal]
    by_cases hb : trim st.newGoalTitle = ""
    · simp [hb]
    · cases created <;> simp [hb, loadData_selectedIds]
  | deleteGoal id deleted e g =>
    left
    simp only [step, handleDeleteGoal]
    cases deleted <;> simp [loadData_selectedIds]
  | chat reply =>
    left
    simp only [step, handleChat]
    by_cases hb : trim st.chatMsg = ""
    · simp [hb]
    · cases reply <;> simp [hb]
  | setNewEntry text => exact Or.inl rfl
  | setChatMsg text => exact Or.inl rfl
  | setNewGoalTitle text => exact Or.inl rfl
  | setShowChat visible => exact Or.inl rfl
  | setShowGoalsModal visible => exact Or.inl rfl
  | setExpandedNote note => exact Or.inl rfl

/-- One action keeps a duplicate-free selection duplicate-free. -/
theorem step_nodup (ses : Session) (st : State) (a : Action) (h : st.selectedIds.Nodup) :
    (step ses st a).selectedIds.Nodup := by
  rcases step_selectedIds ses st a with hEq | hEq | ⟨id, rfl⟩
  · rw [hEq]
    exact h
  · rw [hEq]
    exact List.nodup_nil
  · exact toggleSelect_nodup id st h

/-- Any sequence of actions keeps a duplicate-free selection duplicate-free. -/
theorem foldl_step_nodup (ses : Session) (actions : List Action) (st : State)
    (h : st.selectedIds.Nodup) :
    (actions.foldl (step ses) st).selectedIds.Nodup := by
  induction actions generalizing st with
  | nil => exact h
  | cons a rest ih => exact ih (step ses st a) (step_nodup ses st a h)

/-- C13: on a dashboard mounted with the empty selection, after any sequence of actions
(toggles, batch analyses with any outcome, and every other handler and input change)
the selection list holds no id twice, so the displayed count `selectedIds.length` is
the number of distinct selected ids. -/
theorem selection_nodup (ses : Session) (actions : List Action) :
    (runActions ses actions).selectedIds.Nodup ∧
      (runActions ses actions).selectedIds.length
        = (runActions ses actions).selectedIds.toFinset.card := by
  have hn : (runActions ses actions).selectedIds.Nodup :=
    foldl_step_nodup ses actions State.init List.nodup_nil
  exact ⟨hn, (List.toFinset_card_of_nodup hn).symm⟩

end MindScribe
